import Mathlib

/-!
Verification development for the job-radar ingestion pipeline
(`job_radar.py`, `webscrape_validator.py`).

The Python source is shallowly embedded: pure functions become Lean
functions, the SQLite `jobs` table becomes an explicit key-indexed store,
timestamps are modelled as integer seconds (ISO-8601 UTC strings compare
identically to the instants they denote), network I/O is modelled by
response oracles passed as arguments, and `float` second counts are
modelled at integer-second granularity (the claims under study only
involve whole seconds).
-/

namespace JobRadar

/-! ### Python string helpers

Models of `str.strip` / `str.lower` / `re.sub(r"\s+", " ", ·)` /
substring membership, as used by `normalize_text` and friends
(job_radar.py lines 576-605). All are written over `List Char` so that
they evaluate inside the kernel.
-/

/-- Python `\s` / `str.strip` whitespace class (ASCII fragment). -/
def pyIsSpace (c : Char) : Bool :=
  c = ' ' || c = '\t' || c = '\n' || c = '\r' || c = '\x0b' || c = '\x0c'

/-- Model of Python `str.strip()`. -/
def stripChars (l : List Char) : List Char :=
  ((l.dropWhile pyIsSpace).reverse.dropWhile pyIsSpace).reverse

/-- Model of Python `str.lower()` (ASCII fragment). -/
def lowerChars (l : List Char) : List Char :=
  l.map Char.toLower

/-- Model of `re.sub(r"\s+", " ", s)`: every maximal whitespace run
becomes one space.  The boolean records whether the previous character
was part of a whitespace run. -/
def collapseSpacesAux : Bool → List Char → List Char
  | _, [] => []
  | prevSpace, c :: rest =>
    if pyIsSpace c then
      if prevSpace then collapseSpacesAux true rest
      else ' ' :: collapseSpacesAux true rest
    else c :: collapseSpacesAux false rest

/-- `normalize_text` (job_radar.py line 576):
`re.sub(r"\s+", " ", (s or "").strip().lower())`. -/
def normalize_text (s : String) : String :=
  String.mk (collapseSpacesAux false (stripChars (lowerChars s.toList)))

/-- Python `needle in hay` on strings: contiguous-substring test. -/
def containsSub (needle hay : String) : Bool :=
  decide (needle.toList <:+: hay.toList)

/-- Python `hay.endswith(suff)`. -/
def strEndsWith (s suff : String) : Bool :=
  decide (suff.toList <:+ s.toList)

/-- `contains_any` (job_radar.py line 579). -/
def contains_any (text : String) (keywords : List String) : Bool :=
  keywords.any (fun k => containsSub (normalize_text k) (normalize_text text))

/-! ### Configuration constants (job_radar.py lines 109-171) -/

def ROLE_KEYWORDS : List String :=
  [ "data scientist", "data analyst", "data engineer", "analytics engineer",
    "business intelligence", "bi developer",
    "machine learning", "ml engineer", "ai engineer", "artificial intelligence",
    "research scientist", "applied scientist", "research engineer",
    "machine learning researcher", "ai researcher",
    "quantitative analyst", "quantitative researcher", "quant developer",
    "data science manager", "analytics manager", "ml manager",
    "software engineer, ml", "software engineer - machine learning",
    "software engineer - ai", "backend engineer - data" ]

def EXCLUDE_KEYWORDS : List String :=
  [ "intern", "internship", "co-op", "contract", "temporary", "part-time" ]

def ALLOW_US : Bool := true

def ALLOW_REMOTE : Bool := true

def MAX_POSTING_AGE_DAYS : Int := 90

/-! ### `location_is_us_or_remote` (job_radar.py lines 583-605)

The state-abbreviation regex `,\s*(al|ak|...)\b` is modelled by an
explicit scan: a match starts at a comma, skips whitespace, reads one of
the listed two-letter abbreviations, and requires a word boundary
(end of string or a non-word character) immediately after. -/

def stateAbbrs : List String :=
  [ "al", "ak", "az", "ar", "ca", "co", "ct", "de", "fl", "ga", "hi", "ia",
    "id", "il", "in", "ks", "ky", "la", "ma", "md", "me", "mi", "mn", "mo",
    "ms", "mt", "nc", "nd", "ne", "nh", "nj", "nm", "nv", "ny", "oh", "ok",
    "or", "pa", "ri", "sc", "sd", "tn", "tx", "ut", "va", "vt", "wa", "wi",
    "wv", "wy" ]

/-- Python regex `\w` class (ASCII fragment). -/
def isWordChar (c : Char) : Bool :=
  c.isAlphanum || c = '_'

/-- Does `\s*(abbr)\b` match at the head of `l` (the text right after a
comma)? -/
def stateTokenAt (l : List Char) : Bool :=
  let l2 := l.dropWhile pyIsSpace
  stateAbbrs.any fun ab =>
    let abl := ab.toList
    decide (abl <+: l2) &&
      (match l2.drop abl.length with
       | [] => true
       | d :: _ => !(isWordChar d))

/-- Unanchored search for `,\s*(abbr)\b`. -/
def commaStateSearch : List Char → Bool
  | [] => false
  | c :: rest => (c = ',' && stateTokenAt rest) || commaStateSearch rest

/-- `location_is_us_or_remote` (job_radar.py lines 583-605). -/
def location_is_us_or_remote (location : String) : Bool :=
  let loc := normalize_text location
  if ALLOW_REMOTE &&
      (containsSub "remote" loc || containsSub "work from home" loc ||
        containsSub "wfh" loc) then true
  else if !ALLOW_US then true
  else if containsSub "united states" loc then true
  else if strEndsWith loc " us" || containsSub " usa" loc ||
      strEndsWith loc " usa" then true
  else if commaStateSearch loc.toList then true
  else false

/-! ### `score_job` (job_radar.py lines 608-653) -/

def skillKeywords : List (String × Int) :=
  [ ("python", 1), ("r programming", 1), ("sql", 1),
    ("spark", 1), ("aws", 1), ("azure", 1), ("gcp", 1),
    ("tableau", 1), ("power bi", 1), ("looker", 1),
    ("pytorch", 1), ("tensorflow", 1), ("scikit-learn", 1),
    ("healthcare", 2), ("medical", 2), ("clinical", 2),
    ("education", 1), ("university", 1), ("research", 1) ]

/-- `score_job` (job_radar.py lines 608-653). -/
def score_job (title location description : String) : Int :=
  let t := normalize_text title
  let loc := normalize_text location
  let desc := normalize_text description
  let s : Int := 0
  let s := if containsSub "remote" loc then s + 2 else s
  let s := if ["senior", "staff", "principal", "lead"].any
      (fun x => containsSub x t) then s - 1 else s
  let s := if [" ii", " iii", " 2", " 3"].any
      (fun x => containsSub x t) then s + 1 else s
  let s := if containsSub "engineer" t then s + 1 else s
  let s := if containsSub "scientist" t then s + 1 else s
  let s := if containsSub "analyst" t then s + 1 else s
  skillKeywords.foldl (fun acc kw =>
    if containsSub kw.1 desc then acc + kw.2 else acc) s

/-- `job_passes_filters` (job_radar.py lines 874-881). -/
def job_passes_filters (title location : String) : Bool :=
  contains_any title ROLE_KEYWORDS &&
    !contains_any title EXCLUDE_KEYWORDS &&
    (location == "" || location_is_us_or_remote location)

/-! ### Staleness (job_radar.py lines 655-661)

Instants are integer seconds.  `timedelta.days` is Python floor
division of the elapsed seconds by 86400, which is `Int` `/` here
(both round toward negative infinity for the positive divisor).
`astimezone` does not change the instant, so it drops out. -/

/-- `is_stale_posting` (job_radar.py lines 655-661). -/
def is_stale_posting (posted_at : Option Int) (now : Int) : Bool :=
  match posted_at with
  | none => false
  | some p => decide ((now - p) / 86400 > MAX_POSTING_AGE_DAYS)

/-! ### Data model and store (job_radar.py lines 703-830)

`Job` mirrors the dataclass; a stored table row carries the non-key
columns of the `jobs` table.  The store is indexed by the natural key
`(source, job_id)` (the table's PRIMARY KEY), so key uniqueness is by
construction. `description` is `Option String` because the column is
nullable even though the Python layer always binds a string. -/

structure Job where
  source : String
  job_id : String
  title : String
  company : String
  location : String
  url : String
  posted_at : Option Int
  first_seen_at : Int
  description : String := ""
  deriving DecidableEq

structure Row where
  title : String
  company : String
  location : String
  url : String
  posted_at : Option Int
  first_seen_at : Int
  last_seen_at : Int
  description : Option String
  score : Int
  deriving DecidableEq

abbrev Key := String × String

abbrev Store := Key → Option Row

def Job.key (j : Job) : Key := (j.source, j.job_id)

/-- The truthiness guard
`if not (j.source and j.job_id and j.title and j.company and j.url)`
(job_radar.py line 771). -/
def jobIsValid (j : Job) : Bool :=
  !(j.source == "") && !(j.job_id == "") && !(j.title == "") &&
    !(j.company == "") && !(j.url == "")

/-- The `ON CONFLICT ... DO UPDATE SET` clause of the upsert
(job_radar.py lines 788-799). -/
def mergedRow (r : Row) (j : Job) (sc : Int) (nowSeen : Int) : Row :=
  { r with
    last_seen_at := nowSeen
    posted_at := match r.posted_at with
      | some p => some p
      | none => j.posted_at
    description :=
      if (r.description = none ∨ r.description = some "") ∧
          j.description ≠ "" then some j.description
      else r.description
    score := max r.score sc }

/-- The `INSERT` arm of the upsert (job_radar.py lines 785-787). -/
def insertedRow (j : Job) (sc : Int) (nowSeen : Int) : Row :=
  { title := j.title
    company := j.company
    location := j.location
    url := j.url
    posted_at := j.posted_at
    first_seen_at := j.first_seen_at
    last_seen_at := nowSeen
    description := some j.description
    score := sc }

/-- One loop iteration of `upsert_jobs` (job_radar.py lines 769-814),
store effect only: skip invalid, skip stale, otherwise atomic
insert-or-merge on the natural key. -/
def upsertOne (now : Int) (st : Store) (j : Job) : Store :=
  if ¬ jobIsValid j then st
  else if is_stale_posting j.posted_at now then st
  else
    let sc := score_job j.title j.location j.description
    fun k =>
      if k = j.key then
        some (match st j.key with
          | none => insertedRow j sc now
          | some r => mergedRow r j sc now)
      else st k

/-- Store effect of `upsert_jobs` over the whole job list. -/
def upsertStore (now : Int) (st : Store) (js : List Job) : Store :=
  js.foldl (upsertOne now) st

structure UpsertCounts where
  inserted : Nat
  updated_existing : Nat
  skipped_stale : Nat
  skipped_invalid : Nat
  deriving DecidableEq

/-- One loop iteration of `upsert_jobs` with the reporting counters,
including the post-upsert existence heuristic
`SELECT 1 ... WHERE first_seen_at < ?` (job_radar.py lines 815-828). -/
def upsertStep (now : Int) : Store × UpsertCounts → Job → Store × UpsertCounts :=
  fun sc j =>
    let st := sc.1
    let c := sc.2
    if ¬ jobIsValid j then
      (st, { c with skipped_invalid := c.skipped_invalid + 1 })
    else if is_stale_posting j.posted_at now then
      (st, { c with skipped_stale := c.skipped_stale + 1 })
    else
      let st' := upsertOne now st j
      let existed := match st' j.key with
        | some r => decide (r.first_seen_at < j.first_seen_at)
        | none => false
      if existed then
        (st', { c with updated_existing := c.updated_existing + 1 })
      else
        (st', { c with inserted := c.inserted + 1 })

/-- `upsert_jobs` (job_radar.py lines 757-830): returns the updated
store and `(inserted, updated_existing, skipped_stale, skipped_invalid)`. -/
def upsert_jobs (now : Int) (js : List Job) (st : Store) : Store × UpsertCounts :=
  js.foldl (upsertStep now) (st, ⟨0, 0, 0, 0⟩)

/-! ### Posting feed (`_query_jobs_for_feed`, job_radar.py lines 2658-2696)

The SQL `ORDER BY CASE WHEN posted_at IS NULL THEN 1 ELSE 0 END,
posted_at DESC, last_seen_at DESC` is a lexicographic comparator; the
query result is modelled as the table rows sorted by it (an optional
positive `LIMIT` takes a front segment).  Stored ISO-UTC timestamp
strings compare exactly like the integer instants modelling them. -/

def feedNullRank (r : Row) : Nat :=
  if r.posted_at = none then 1 else 0

def feedPostedVal (r : Row) : Int :=
  r.posted_at.getD 0

/-- The row comparator induced by the feed query's ORDER BY clause:
dated rows first, then `posted_at` descending, then `last_seen_at`
descending. -/
def feedLeB (a b : Row) : Bool :=
  decide (feedNullRank a < feedNullRank b) ||
    (feedNullRank a == feedNullRank b &&
      (decide (feedPostedVal b < feedPostedVal a) ||
        (feedPostedVal a == feedPostedVal b &&
          decide (b.last_seen_at ≤ a.last_seen_at))))

def feedLE (a b : Key × Row) : Prop :=
  feedLeB a.2 b.2 = true

instance : DecidableRel feedLE :=
  fun a b => inferInstanceAs (Decidable (feedLeB a.2 b.2 = true))

/-- `_query_jobs_for_feed` (job_radar.py lines 2658-2696), over the
table contents. -/
def _query_jobs_for_feed (rows : List (Key × Row)) (limit : Option Int) :
    List (Key × Row) :=
  let sorted := List.insertionSort feedLE rows
  match limit with
  | some n => if 0 < n then sorted.take n.toNat else sorted
  | none => sorted

/-! ### Per-connector validators (job_radar.py lines 926-967)

The parsed JSON responses are modelled by small ADTs recording exactly
the shape distinctions the code tests (`isinstance(data, dict)`,
`"jobs" in data`, `isinstance(data["jobs"], list)`, ...). -/

structure GhJob where
  title : String
  location_name : Option String
  deriving DecidableEq

/-- Value of the `"jobs"` key of a Greenhouse board response. -/
inductive GhJobs where
  | notList
  | list (jobs : List GhJob)
  deriving DecidableEq

/-- A parsed Greenhouse board response. `dict none` models a dict
without a `"jobs"` key. -/
inductive GhData where
  | notDict
  | dict (jobsField : Option GhJobs)
  deriving DecidableEq

/-- `((job.get("location") or {}).get("name", "")) or ""`. -/
def ghLoc (j : GhJob) : String :=
  j.location_name.getD ""

/-- `validate_greenhouse_token` (job_radar.py lines 926-946), over the
parsed response.  Note the loop examines only `jobs[:50]`. -/
def validate_greenhouse_token (data : GhData) : Bool × String :=
  match data with
  | .notDict => (false, "bad_json_shape")
  | .dict none => (false, "bad_json_shape")
  | .dict (some .notList) => (false, "bad_json_shape")
  | .dict (some (.list jobs)) =>
    if jobs.isEmpty then (false, "no_jobs")
    else if (jobs.take 50).any
        (fun j => job_passes_filters j.title (ghLoc j)) then (true, "ok")
    else (false, "no_matching_jobs")

structure LvJob where
  text : Option String
  title : Option String
  categories_location : Option String
  deriving DecidableEq

/-- A parsed Lever response (`isinstance(data, list)` or not). -/
inductive LvData where
  | notList
  | list (jobs : List LvJob)
  deriving DecidableEq

/-- Python `a or b` on strings/None: first truthy value. -/
def pyOrStr (a : Option String) (b : String) : String :=
  match a with
  | some s => if s = "" then b else s
  | none => b

/-- `job.get("text") or job.get("title") or ""`. -/
def lvTitle (j : LvJob) : String :=
  pyOrStr j.text (pyOrStr j.title "")

/-- `(job.get("categories") or {}).get("location", "") or ""`. -/
def lvLoc (j : LvJob) : String :=
  j.categories_location.getD ""

/-- `validate_lever_token` (job_radar.py lines 948-967). -/
def validate_lever_token (data : LvData) : Bool × String :=
  match data with
  | .notList => (false, "bad_json_shape")
  | .list jobs =>
    if jobs.isEmpty then (false, "no_jobs")
    else if (jobs.take 50).any
        (fun j => job_passes_filters (lvTitle j) (lvLoc j)) then (true, "ok")
    else (false, "no_matching_jobs")

/-! ### Parallel validator runner (job_radar.py lines 1055-1116)

`_run_validator_parallel` collects per-token results in thread
completion order (`as_completed`), then rebuilds the valid list in
input order: `valid_ordered = [t for t in tokens if t in set(valid)]`.
The completion order is modelled as an arbitrary permutation of the
submitted tokens, and the (deterministic) per-token validator outcome
as a boolean function. The function below returns the list written to
the valid-tokens file. -/

def _run_validator_parallel (tokens completionOrder : List String)
    (outcome : String → Bool) : List String :=
  let valid := completionOrder.filter outcome
  tokens.filter (fun t => valid.contains t)

/-! ### Retry-After parsing and throttling (job_radar.py lines 204-234
and 363-383)

Durations and instants are integer seconds.  `parsedate_to_datetime`
(an email-utils library call) is abstracted as an oracle returning the
denoted instant, or `none` when parsing raises. -/

/-- Python `str.isdigit` (ASCII fragment). -/
def pyIsdigit (s : String) : Bool :=
  s != "" && s.toList.all Char.isDigit

/-- Numeric value of a digit string (`float(raw)` on an `isdigit`
string, at integer granularity). -/
def digitsToNat (l : List Char) : Nat :=
  l.foldl (fun n c => n * 10 + (c.toNat - 48)) 0

/-- `_parse_retry_after_seconds` (job_radar.py lines 363-376). -/
def _parse_retry_after_seconds (retryAfter : Option String)
    (parseHttpDate : String → Option Int) (now : Int) : Option Int :=
  match retryAfter with
  | none => none
  | some s =>
    if s = "" then none
    else
      let raw := String.mk (stripChars s.toList)
      if pyIsdigit raw then some (max 0 (digitsToNat raw.toList : Int))
      else
        match parseHttpDate raw with
        | none => none
        | some t => some (max 0 (t - now))

/-- `_retry_sleep_seconds` (job_radar.py lines 379-383). -/
def _retry_sleep_seconds (attempt : Nat) (retryAfter : Option String)
    (parseHttpDate : String → Option Int) (now : Int) : Int :=
  match _parse_retry_after_seconds retryAfter parseHttpDate now with
  | some parsed => min parsed 60
  | none => min (2 * ((attempt : Int) + 1)) 30

/-- The `RequestThrottler._next_allowed` map (job_radar.py line 209),
total with default `0.0`. -/
abbrev ThrottleMap := String → Int

/-- `RequestThrottler.defer` (job_radar.py lines 226-234): push the
host's next-allowed time to `max(current, now + delay)`. -/
def throttlerDefer (next : ThrottleMap) (now : Int) (key : String)
    (delaySec : Int) : ThrottleMap :=
  let delay := max 0 delaySec
  if delay ≤ 0 then next
  else fun k => if k = key then max (next key) (now + delay) else next k

/-- The 429 branch of `http_get_json_with_retry` (job_radar.py lines
406-412): compute the sleep from the `Retry-After` header and defer the
host. -/
def on429Defer (next : ThrottleMap) (now : Int) (host : String)
    (attempt : Nat) (retryAfter : Option String)
    (parseHttpDate : String → Option Int) : ThrottleMap :=
  throttlerDefer next now host
    (_retry_sleep_seconds attempt retryAfter parseHttpDate now)

/-! ### Safety gateway (job_radar.py lines 184-292, SSRF validation)

IPv4/IPv6 addresses are the integers they encode; CIDR membership is
equality of the network-prefix quotient.  The classification flags
(`is_private`, `is_loopback`, ...) model the Python stdlib `ipaddress`
definitions.  An unparseable address string is `none`. -/

def mkIPv4 (a b c d : Nat) : Nat :=
  ((a * 256 + b) * 256 + c) * 256 + d

inductive IPAddr where
  | v4 (n : Nat)
  | v6 (n : Nat)
  deriving DecidableEq

inductive IPNet where
  | n4 (base prefixLen : Nat)
  | n6 (base prefixLen : Nat)
  deriving DecidableEq

def inNet4 (addr base plen : Nat) : Bool :=
  addr / 2 ^ (32 - plen) == base / 2 ^ (32 - plen)

def inNet6 (addr base plen : Nat) : Bool :=
  addr / 2 ^ (128 - plen) == base / 2 ^ (128 - plen)

/-- `ip in network`; mismatched address families are not contained. -/
def ipInNet (ip : IPAddr) (net : IPNet) : Bool :=
  match ip, net with
  | .v4 n, .n4 b p => inNet4 n b p
  | .v6 n, .n6 b p => inNet6 n b p
  | _, _ => false

/-- `BLOCKED_NETWORKS` (job_radar.py lines 187-201). -/
def BLOCKED_NETWORKS : List IPNet :=
  [ .n4 (mkIPv4 0 0 0 0) 8,
    .n4 (mkIPv4 10 0 0 0) 8,
    .n4 (mkIPv4 100 64 0 0) 10,
    .n4 (mkIPv4 127 0 0 0) 8,
    .n4 (mkIPv4 169 254 0 0) 16,
    .n4 (mkIPv4 172 16 0 0) 12,
    .n4 (mkIPv4 192 168 0 0) 16,
    .n4 (mkIPv4 224 0 0 0) 4,
    .n4 (mkIPv4 240 0 0 0) 4,
    .n6 1 128,
    .n6 (0xfc * 2 ^ 120) 7,
    .n6 (0xfe80 * 2 ^ 112) 10,
    .n6 (0xff * 2 ^ 120) 8 ]

/-- stdlib `ip.is_loopback`. -/
def ipIsLoopback : IPAddr → Bool
  | .v4 n => inNet4 n (mkIPv4 127 0 0 0) 8
  | .v6 n => n == 1

/-- stdlib `ip.is_link_local`. -/
def ipIsLinkLocal : IPAddr → Bool
  | .v4 n => inNet4 n (mkIPv4 169 254 0 0) 16
  | .v6 n => inNet6 n (0xfe80 * 2 ^ 112) 10

/-- stdlib `ip.is_multicast`. -/
def ipIsMulticast : IPAddr → Bool
  | .v4 n => inNet4 n (mkIPv4 224 0 0 0) 4
  | .v6 n => inNet6 n (0xff * 2 ^ 120) 8

/-- stdlib `ip.is_unspecified`. -/
def ipIsUnspecified : IPAddr → Bool
  | .v4 n => n == 0
  | .v6 n => n == 0

def reservedNetsV6 : List (Nat × Nat) :=
  [ (0, 8), (0x100 * 2 ^ 112, 8), (0x200 * 2 ^ 112, 7), (0x400 * 2 ^ 112, 6),
    (0x800 * 2 ^ 112, 5), (0x1000 * 2 ^ 112, 4), (0x4000 * 2 ^ 112, 3),
    (0x6000 * 2 ^ 112, 3), (0x8000 * 2 ^ 112, 3), (0xa000 * 2 ^ 112, 3),
    (0xc000 * 2 ^ 112, 3), (0xe000 * 2 ^ 112, 4), (0xf000 * 2 ^ 112, 5),
    (0xf800 * 2 ^ 112, 6), (0xfe00 * 2 ^ 112, 9) ]

/-- stdlib `ip.is_reserved`. -/
def ipIsReserved : IPAddr → Bool
  | .v4 n => inNet4 n (mkIPv4 240 0 0 0) 4
  | .v6 n => reservedNetsV6.any (fun bp => inNet6 n bp.1 bp.2)

def privateNetsV4 : List (Nat × Nat) :=
  [ (mkIPv4 0 0 0 0, 8), (mkIPv4 10 0 0 0, 8), (mkIPv4 127 0 0 0, 8),
    (mkIPv4 169 254 0 0, 16), (mkIPv4 172 16 0 0, 12), (mkIPv4 192 0 0 0, 29),
    (mkIPv4 192 0 0 170, 31), (mkIPv4 192 0 2 0, 24), (mkIPv4 192 168 0 0, 16),
    (mkIPv4 198 18 0 0, 15), (mkIPv4 198 51 100 0, 24),
    (mkIPv4 203 0 113 0, 24), (mkIPv4 240 0 0 0, 4),
    (mkIPv4 255 255 255 255, 32) ]

def privateNetsV6 : List (Nat × Nat) :=
  [ (1, 128), (0, 128), (0xffff * 2 ^ 32, 96), (0x100 * 2 ^ 112, 64),
    (0x2001 * 2 ^ 112, 23), (0x20010db8 * 2 ^ 96, 32), (0x2002 * 2 ^ 112, 16),
    (0xfc00 * 2 ^ 112, 7), (0xfe80 * 2 ^ 112, 10) ]

/-- stdlib `ip.is_private`. -/
def ipIsPrivate : IPAddr → Bool
  | .v4 n => privateNetsV4.any (fun bp => inNet4 n bp.1 bp.2)
  | .v6 n => privateNetsV6.any (fun bp => inNet6 n bp.1 bp.2)

/-- `_ip_is_blocked` (job_radar.py lines 237-249); `none` is an address
string `ipaddress.ip_address` cannot parse. -/
def _ip_is_blocked (ip : Option IPAddr) : Bool :=
  match ip with
  | none => true
  | some a =>
    ipIsPrivate a || ipIsLoopback a || ipIsLinkLocal a || ipIsMulticast a ||
      ipIsReserved a || ipIsUnspecified a ||
      BLOCKED_NETWORKS.any (fun net => ipInNet a net)

/-- `_hostname_is_safe` (job_radar.py lines 252-281).  `cached` is the
`_HOST_SAFETY_CACHE` entry for the host; `resolved` is the
`getaddrinfo` result (`none` when resolution raises, one entry per
returned sockaddr). -/
def _hostname_is_safe (host : String) (cached : Option Bool)
    (resolved : Option (List (Option IPAddr))) : Bool :=
  if String.mk (lowerChars (stripChars host.toList)) = "" then false
  else
    match cached with
    | some v => v
    | none =>
      match resolved with
      | none => false
      | some [] => false
      | some infos => !(infos.any _ip_is_blocked)

structure UrlParts where
  scheme : String
  hostname : Option String
  netloc : String
  deriving DecidableEq

/-- `_validate_request_url` (job_radar.py lines 284-292); `.error`
models the raised `ValueError`. -/
def _validate_request_url (u : UrlParts) (cached : Option Bool)
    (resolved : Option (List (Option IPAddr))) : Except String String :=
  if u.scheme ≠ "http" ∧ u.scheme ≠ "https" then
    .error "Blocked non-http(s) URL"
  else
    match u.hostname with
    | none => .error "Blocked URL with no hostname"
    | some h =>
      if h = "" then .error "Blocked URL with no hostname"
      else if ¬ _hostname_is_safe h cached resolved then
        .error "Blocked unsafe hostname"
      else .ok (if u.netloc = "" then "unknown-host" else u.netloc)

/-- An HTTP response as classified by the retry loop. -/
inductive HttpResp where
  | timeout
  | connError
  | status (code : Nat) (retryAfter : Option String)
  deriving DecidableEq

/-- Number of GET requests issued by the retry loop of
`http_get_json_with_retry` (job_radar.py lines 401-438) given the
per-attempt responses: each loop iteration issues one request and
continues on timeout / connection error / 429 / 5xx; any other status
returns or raises; after the loop a final unprotected request is made. -/
def httpAttemptCount (resp : Nat → HttpResp) : Nat → Nat → Nat
  | _, 0 => 1
  | attempt, fuel + 1 =>
    match resp attempt with
    | .timeout => 1 + httpAttemptCount resp (attempt + 1) fuel
    | .connError => 1 + httpAttemptCount resp (attempt + 1) fuel
    | .status code _ =>
      if code == 429 then 1 + httpAttemptCount resp (attempt + 1) fuel
      else if 500 ≤ code && code < 600 then
        1 + httpAttemptCount resp (attempt + 1) fuel
      else 1

/-- Request-count projection of `http_get_json_with_retry`
(job_radar.py lines 386-438): URL validation runs first and a
validation failure raises before any request; otherwise the retry loop
runs.  The JSON payload itself is irrelevant to the claims and is
abstracted to `Unit`. -/
def http_get_json_with_retry (u : UrlParts) (cached : Option Bool)
    (resolved : Option (List (Option IPAddr))) (resp : Nat → HttpResp)
    (maxRetries : Nat) : Nat × Except String Unit :=
  match _validate_request_url u cached resolved with
  | .error e => (0, .error e)
  | .ok _ => (httpAttemptCount resp 0 maxRetries, .ok ())

/-! ### Paginated connectors (job_radar.py lines 1568-1667, 2231-2309)

Both loops are modelled by their request traces: the list of offsets
actually fetched, driven by a page oracle.  The page records exactly
what the loop inspects: whether `content` / `jobPostings` parsed as a
list, how many items it held, and the reported total. -/

structure SRPage where
  contentLen : Option Nat
  totalFound : Option Int
  deriving DecidableEq

def SR_PAGE_LIMIT : Nat := 100

def SR_MAX_PAGES : Nat := 50

/-- The upstream signals that make the SmartRecruiters loop stop after
the request at `offset`: content missing/not a list, an empty page, or
the reported total reached. -/
def srStopSignal (p : SRPage) (offset : Nat) : Prop :=
  p.contentLen = none ∨ p.contentLen = some 0 ∨
    (∃ t, p.totalFound = some t ∧ ((offset : Int) + 100) ≥ t)

/-- Offsets requested by `fetch_smartrecruiters` (job_radar.py lines
2244-2309): request the page, break on non-list/empty content or when
`offset + limit >= totalFound`, else advance `offset` by the limit. -/
def fetch_smartrecruiters_offsets (getPage : Nat → SRPage) :
    Nat → Nat → List Nat
  | _, 0 => []
  | offset, fuel + 1 =>
    let p := getPage offset
    match p.contentLen with
    | none => [offset]
    | some 0 => [offset]
    | some (_ + 1) =>
      match p.totalFound with
      | some t =>
        if ((offset : Int) + 100) ≥ t then [offset]
        else offset :: fetch_smartrecruiters_offsets getPage (offset + 100) fuel
      | none => offset :: fetch_smartrecruiters_offsets getPage (offset + 100) fuel

structure WDPage where
  postingsLen : Option Nat
  total : Option Int
  deriving DecidableEq

def WD_PAGE_LIMIT : Nat := 20

def WD_MAX_PAGES : Nat := 50

/-- The upstream signals that make the Workday loop stop after the
request at `offset`: request failure / non-dict data, postings
missing/not a list, an empty page, the total reached, or a short page. -/
def wdStopSignal (p : Option WDPage) (offset : Nat) : Prop :=
  p = none ∨
    (∃ q, p = some q ∧
      (q.postingsLen = none ∨ q.postingsLen = some 0 ∨
        (∃ t, q.total = some t ∧ ((offset : Int) + 20) ≥ t) ∨
        (∃ n, q.postingsLen = some n ∧ n < 20)))

/-- Offsets requested by the per-endpoint pagination loop of
`fetch_workday_from_career_url` (job_radar.py lines 1591-1662):
request the page, break on exception/non-dict, non-list or empty
postings, `offset + limit >= total`, or a short page; else advance
`offset` by the limit. -/
def fetch_workday_offsets (getPage : Nat → Option WDPage) :
    Nat → Nat → List Nat
  | _, 0 => []
  | offset, fuel + 1 =>
    match getPage offset with
    | none => [offset]
    | some p =>
      match p.postingsLen with
      | none => [offset]
      | some 0 => [offset]
      | some (n + 1) =>
        match p.total with
        | some t =>
          if ((offset : Int) + 20) ≥ t then [offset]
          else if n + 1 < 20 then [offset]
          else offset :: fetch_workday_offsets getPage (offset + 20) fuel
        | none =>
          if n + 1 < 20 then [offset]
          else offset :: fetch_workday_offsets getPage (offset + 20) fuel

/-! ## Shared helper lemmas -/

/-- The store component of one counting step is `upsertOne`. -/
theorem upsertStep_fst (now : Int) (st : Store) (c : UpsertCounts) (j : Job) :
    (upsertStep now (st, c) j).1 = upsertOne now st j := by
  unfold upsertStep upsertOne
  by_cases h1 : jobIsValid j
  · by_cases h2 : is_stale_posting j.posted_at now
    · simp [h1, h2]
    · simp only [h1, h2, not_true_eq_false, if_false, if_true, Bool.false_eq_true,
        not_false_eq_true, if_neg, if_pos]
      split <;> rfl
  · simp [h1]

/-- The store component of `upsert_jobs` is `upsertStore`. -/
theorem upsert_jobs_fst (now : Int) (js : List Job) (st : Store) :
    (upsert_jobs now js st).1 = upsertStore now st js := by
  suffices h : ∀ c, (js.foldl (upsertStep now) (st, c)).1 = upsertStore now st js by
    exact h _
  induction js generalizing st with
  | nil => intro c; rfl
  | cons j rest ih =>
    intro c
    have hpair : upsertStep now (st, c) j =
        ((upsertStep now (st, c) j).1, (upsertStep now (st, c) j).2) := rfl
    calc (List.foldl (upsertStep now) (st, c) (j :: rest)).1
        = (List.foldl (upsertStep now) (upsertStep now (st, c) j) rest).1 := rfl
      _ = (List.foldl (upsertStep now)
            ((upsertStep now (st, c) j).1, (upsertStep now (st, c) j).2) rest).1 := by
            rw [← hpair]
      _ = upsertStore now (upsertStep now (st, c) j).1 rest := by
            rw [upsertStep_fst]; exact ih _ _
      _ = upsertStore now st (j :: rest) := by rw [upsertStep_fst]; rfl

/-- A stored row is never deleted by a single upsert step. -/
theorem upsertOne_preserves_some (now : Int) (st : Store) (j : Job) (k : Key)
    (r : Row) (h : st k = some r) :
    ∃ r', upsertOne now st j k = some r' := by
  unfold upsertOne
  by_cases h1 : jobIsValid j
  · by_cases h2 : is_stale_posting j.posted_at now
    · exact ⟨r, by simp [h1, h2, h]⟩
    · by_cases hk : k = j.key
      · simp only [h1, not_true_eq_false, if_false, h2, Bool.false_eq_true, if_neg,
          not_false_eq_true, hk, if_pos]
        exact ⟨_, rfl⟩
      · exact ⟨r, by simp [h1, h2, hk, h]⟩
  · exact ⟨r, by simp [h1, h]⟩

/-- A stored row is never deleted by a whole upsert pass. -/
theorem upsertStore_preserves_some (now : Int) (js : List Job) (st : Store)
    (k : Key) (r : Row) (h : st k = some r) :
    ∃ r', upsertStore now st js k = some r' := by
  induction js generalizing st r with
  | nil => exact ⟨r, h⟩
  | cons j rest ih =>
    obtain ⟨r1, hr1⟩ := upsertOne_preserves_some now st j k r h
    exact ih (upsertOne now st j) r1 hr1

/-! ## Claim theorems -/

/-- C9: for every input token list and every completion order of the
parallel validation tasks (a permutation of the submissions), the
valid-token list written by `_run_validator_parallel` is exactly the
subsequence of the input token list whose elements the validator
accepted, in input-list order — hence identical across runs regardless
of thread interleaving. -/
theorem validator_output_order_independent
    (tokens completionOrder : List String) (outcome : String → Bool)
    (hperm : completionOrder.Perm tokens) :
    _run_validator_parallel tokens completionOrder outcome =
      tokens.filter outcome := by
  unfold _run_validator_parallel
  apply List.filter_congr
  intro t ht
  by_cases h : outcome t
  · simp [List.mem_filter, hperm.mem_iff, ht, h]
  · simp [List.mem_filter, h]

theorem validator_output_order_independent_witness :
    (["c", "a", "b"] : List String).Perm ["a", "b", "c"] ∧
      _run_validator_parallel ["a", "b", "c"] ["c", "a", "b"]
        (fun t => t == "a" || t == "c") = ["a", "c"] :=
  ⟨by decide, by
    rw [validator_output_order_independent ["a", "b", "c"] ["c", "a", "b"]
      (fun t => t == "a" || t == "c") (by decide)]
    decide⟩

/-- C4: a posting with a known `posted_at` exactly
`MAX_POSTING_AGE_DAYS + 1` days in the past is classified stale and
skipped (counted `skipped_stale`, the store unchanged); exactly
`MAX_POSTING_AGE_DAYS` days in the past it is fresh and accepted into
the store; an absent `posted_at` is never stale; and staleness never
deletes an already-stored row. -/
theorem staleness_boundary (now : Int) (st : Store) (j : Job)
    (hvalid : jobIsValid j = true) :
    (j.posted_at = some (now - (MAX_POSTING_AGE_DAYS + 1) * 86400) →
      is_stale_posting j.posted_at now = true ∧
      upsert_jobs now [j] st = (st, ⟨0, 0, 1, 0⟩)) ∧
    (j.posted_at = some (now - MAX_POSTING_AGE_DAYS * 86400) →
      is_stale_posting j.posted_at now = false ∧
      (upsertStore now st [j] j.key).isSome = true) ∧
    (j.posted_at = none → is_stale_posting j.posted_at now = false) ∧
    (∀ k r, st k = some r → ∃ r', (upsert_jobs now [j] st).1 k = some r') := by
  refine ⟨?_, ?_, ?_, ?_⟩
  · intro hp
    have hstale : is_stale_posting j.posted_at now = true := by
      rw [hp]
      simp only [is_stale_posting, MAX_POSTING_AGE_DAYS, decide_eq_true_eq]
      omega
    refine ⟨hstale, ?_⟩
    simp only [upsert_jobs, List.foldl, upsertStep, hvalid, not_true_eq_false,
      if_false, hstale, if_true, Bool.false_eq_true, if_neg, not_false_eq_true]
  · intro hp
    have hfresh : is_stale_posting j.posted_at now = false := by
      rw [hp]
      simp only [is_stale_posting, MAX_POSTING_AGE_DAYS, decide_eq_false_iff_not]
      omega
    refine ⟨hfresh, ?_⟩
    simp [upsertStore, upsertOne, hvalid, hfresh]
  · intro hp
    rw [hp]
    rfl
  · intro k r hkr
    rw [upsert_jobs_fst]
    exact upsertStore_preserves_some now [j] st k r hkr

theorem staleness_boundary_witness :
    jobIsValid ⟨"greenhouse", "1", "Data Analyst", "Acme", "Remote", "u",
      some (-7862400), 0, ""⟩ = true ∧
    is_stale_posting (some ((0 : Int) - (MAX_POSTING_AGE_DAYS + 1) * 86400)) 0 = true ∧
    upsert_jobs 0 [⟨"greenhouse", "1", "Data Analyst", "Acme", "Remote", "u",
      some (-7862400), 0, ""⟩] (fun _ => none) = (fun _ => none, ⟨0, 0, 1, 0⟩) := by
  have h := staleness_boundary 0 (fun _ => none)
    ⟨"greenhouse", "1", "Data Analyst", "Acme", "Remote", "u", some (-7862400), 0, ""⟩
    (by decide)
  have h1 := h.1 (by norm_num [MAX_POSTING_AGE_DAYS])
  exact ⟨by decide, by rw [show ((0 : Int) - (MAX_POSTING_AGE_DAYS + 1) * 86400) =
    -7862400 by norm_num [MAX_POSTING_AGE_DAYS]]; exact h1.1, h1.2⟩

/-- C7: the retry delay equals the `Retry-After` duration — digit form
parsed as seconds, date form as the distance from now — clamped to at
most 60 seconds whenever the header is present and parseable, and
equals the linear backoff `min(2*(attempt+1), 30)` otherwise; on a 429
carrying `Retry-After: 5` the host's next-allowed time is deferred to
at least 5 seconds from now. -/
theorem retry_after_honoring (attempt : Nat) (pd : String → Option Int)
    (now t : Int) (next : ThrottleMap) (host : String) (s : String) :
    (_retry_sleep_seconds attempt none pd now =
      min (2 * ((attempt : Int) + 1)) 30) ∧
    (s ≠ "" → pyIsdigit (String.mk (stripChars s.toList)) = true →
      _retry_sleep_seconds attempt (some s) pd now =
        min ((digitsToNat (stripChars s.toList) : Int)) 60 ∧
      _retry_sleep_seconds attempt (some s) pd now ≤ 60) ∧
    (s ≠ "" → pyIsdigit (String.mk (stripChars s.toList)) = false →
      pd (String.mk (stripChars s.toList)) = some t →
      _retry_sleep_seconds attempt (some s) pd now = min (max 0 (t - now)) 60 ∧
      _retry_sleep_seconds attempt (some s) pd now ≤ 60) ∧
    (s ≠ "" → pyIsdigit (String.mk (stripChars s.toList)) = false →
      pd (String.mk (stripChars s.toList)) = none →
      _retry_sleep_seconds attempt (some s) pd now =
        min (2 * ((attempt : Int) + 1)) 30) ∧
    (on429Defer next now host attempt (some "5") pd host ≥ now + 5) := by
  refine ⟨rfl, ?_, ?_, ?_, ?_⟩
  · intro hne hdig
    have : _parse_retry_after_seconds (some s) pd now =
        some (max 0 (digitsToNat (stripChars s.toList) : Int)) := by
      simp only [_parse_retry_after_seconds, if_neg hne, hdig, if_true]
      rfl
    constructor
    · simp only [_retry_sleep_seconds, this]
      have hnn := Int.ofNat_nonneg (digitsToNat (stripChars s.toList))
      omega
    · simp only [_retry_sleep_seconds, this]
      exact min_le_right _ _
  · intro hne hdig hdate
    have : _parse_retry_after_seconds (some s) pd now = some (max 0 (t - now)) := by
      simp only [_parse_retry_after_seconds, if_neg hne, hdig, Bool.false_eq_true,
        if_false, hdate]
    exact ⟨by simp only [_retry_sleep_seconds, this],
      by simp only [_retry_sleep_seconds, this]; exact min_le_right _ _⟩
  · intro hne hdig hdate
    have : _parse_retry_after_seconds (some s) pd now = none := by
      simp only [_parse_retry_after_seconds, if_neg hne, hdig, Bool.false_eq_true,
        if_false, hdate]
    simp only [_retry_sleep_seconds, this]
  · have h5 : _parse_retry_after_seconds (some "5") pd now = some 5 := by
      simp +decide only [_parse_retry_after_seconds, if_true, if_false]
    have hsleep : _retry_sleep_seconds attempt (some "5") pd now = 5 := by
      simp only [_retry_sleep_seconds, h5]
      decide
    unfold on429Defer throttlerDefer
    rw [hsleep]
    simp only [show max (0 : Int) 5 = 5 by decide]
    rw [if_neg (by omega), if_pos rfl]
    exact le_trans (by omega) (le_max_right (next host) (now + 5))

/-- C6 counterexample: a well-formed Greenhouse response with 51
postings whose only filter-passing posting is the 51st is marked
invalid (`no_matching_jobs`) even though the response contains a
posting that passes the filter engine — refuting the claimed
"valid iff the response contains at least one passing posting". -/
theorem validator_first50_counterexample :
    validate_greenhouse_token (.dict (some (.list
      (List.replicate 50 (⟨"", none⟩ : GhJob) ++
        [⟨"Data Scientist", some "Remote"⟩])))) = (false, "no_matching_jobs") ∧
    ∃ j ∈ List.replicate 50 (⟨"", none⟩ : GhJob) ++
        [(⟨"Data Scientist", some "Remote"⟩ : GhJob)],
      job_passes_filters j.title (ghLoc j) = true := by
  constructor
  · decide
  · exact ⟨⟨"Data Scientist", some "Remote"⟩, by decide, by decide⟩

/-- C6 (amended): the per-connector validator marks a token valid with
reason `ok` iff at least one of the FIRST 50 postings of the response
passes the filter engine (the code only examines `jobs[:50]`); an
empty list yields `(False, "no_jobs")`, a non-empty list none of whose
first 50 postings pass yields `(False, "no_matching_jobs")`, and a
response of the wrong shape yields `(False, "bad_json_shape")` —
for both the Greenhouse and the Lever validator. -/
theorem validator_reason_codes (ghJobs : List GhJob) (lvJobs : List LvJob) :
    (validate_greenhouse_token .notDict = (false, "bad_json_shape")) ∧
    (validate_greenhouse_token (.dict none) = (false, "bad_json_shape")) ∧
    (validate_greenhouse_token (.dict (some .notList)) = (false, "bad_json_shape")) ∧
    (validate_greenhouse_token (.dict (some (.list []))) = (false, "no_jobs")) ∧
    (validate_greenhouse_token (.dict (some (.list ghJobs))) = (true, "ok") ↔
      ∃ j ∈ ghJobs.take 50, job_passes_filters j.title (ghLoc j) = true) ∧
    (ghJobs ≠ [] →
      (¬ ∃ j ∈ ghJobs.take 50, job_passes_filters j.title (ghLoc j) = true) →
      validate_greenhouse_token (.dict (some (.list ghJobs))) =
        (false, "no_matching_jobs")) ∧
    (validate_lever_token .notList = (false, "bad_json_shape")) ∧
    (validate_lever_token (.list []) = (false, "no_jobs")) ∧
    (validate_lever_token (.list lvJobs) = (true, "ok") ↔
      ∃ j ∈ lvJobs.take 50, job_passes_filters (lvTitle j) (lvLoc j) = true) ∧
    (lvJobs ≠ [] →
      (¬ ∃ j ∈ lvJobs.take 50, job_passes_filters (lvTitle j) (lvLoc j) = true) →
      validate_lever_token (.list lvJobs) = (false, "no_matching_jobs")) := by
  refine ⟨rfl, rfl, rfl, rfl, ?_, ?_, rfl, rfl, ?_, ?_⟩
  · by_cases he : ghJobs.isEmpty
    · simp [validate_greenhouse_token, he, List.isEmpty_iff.mp he]
    · by_cases ha : (ghJobs.take 50).any (fun j => job_passes_filters j.title (ghLoc j))
      · simp [validate_greenhouse_token, he, ha, List.any_eq_true.mp ha]
      · simp only [validate_greenhouse_token, he, Bool.false_eq_true, if_false, ha]
        constructor
        · intro h
          exact absurd h (by simp)
        · intro h
          exact absurd (List.any_eq_true.mpr h) (by simp [ha])
  · intro hne hnone
    have he : ghJobs.isEmpty = false := by
      simp [List.isEmpty_iff, hne]
    have ha : (ghJobs.take 50).any (fun j => job_passes_filters j.title (ghLoc j)) = false := by
      rw [Bool.eq_false_iff]
      intro hc
      exact hnone (List.any_eq_true.mp hc)
    simp [validate_greenhouse_token, he, ha]
  · by_cases he : lvJobs.isEmpty
    · simp [validate_lever_token, he, List.isEmpty_iff.mp he]
    · by_cases ha : (lvJobs.take 50).any (fun j => job_passes_filters (lvTitle j) (lvLoc j))
      · simp [validate_lever_token, he, ha, List.any_eq_true.mp ha]
      · simp only [validate_lever_token, he, Bool.false_eq_true, if_false, ha]
        constructor
        · intro h
          exact absurd h (by simp)
        · intro h
          exact absurd (List.any_eq_true.mpr h) (by simp [ha])
  · intro hne hnone
    have he : lvJobs.isEmpty = false := by
      simp [List.isEmpty_iff, hne]
    have ha : (lvJobs.take 50).any (fun j => job_passes_filters (lvTitle j) (lvLoc j)) = false := by
      rw [Bool.eq_false_iff]
      intro hc
      exact hnone (List.any_eq_true.mp hc)
    simp [validate_lever_token, he, ha]

theorem validator_reason_codes_witness :
    validate_greenhouse_token (.dict (some (.list
      [⟨"Data Scientist", some "Remote"⟩]))) = (true, "ok") ∧
    validate_lever_token (.list [⟨some "Accountant", none, some "Remote"⟩]) =
      (false, "no_matching_jobs") := by
  constructor
  · exact (validator_reason_codes [⟨"Data Scientist", some "Remote"⟩] []).2.2.2.2.1.mpr
      ⟨⟨"Data Scientist", some "Remote"⟩, by decide, by decide⟩
  · exact (validator_reason_codes [] [⟨some "Accountant", none, some "Remote"⟩]).2.2.2.2.2.2.2.2.2
      (by decide) (by decide)

theorem retry_after_honoring_witness :
    ("7" : String) ≠ "" ∧
    pyIsdigit (String.mk (stripChars ("7" : String).toList)) = true ∧
    _retry_sleep_seconds 0 (some "7") (fun _ => none) 0 = 7 ∧
    _retry_sleep_seconds 3 none (fun _ => none) 0 = 8 ∧
    on429Defer (fun _ => 0) 100 "h" 0 (some "5") (fun _ => none) "h" ≥ 105 := by
  have h := retry_after_honoring 0 (fun _ => none) 0 0 (fun _ => 0) "h" "7"
  have h2 := (h.2.1 (by decide) (by decide)).1
  have h4 := (retry_after_honoring 3 (fun _ => none) 0 0 (fun _ => 0) "h" "7").1
  have h5 := (retry_after_honoring 0 (fun _ => none) 100 0 (fun _ => 0) "h" "7").2.2.2.2
  exact ⟨by decide, by decide, by rw [h2]; decide, by rw [h4]; decide, h5⟩

/-- The feed comparator is total. -/
instance feedLE_isTotal : IsTotal (Key × Row) feedLE := by
  constructor
  intro a b
  simp only [feedLE, feedLeB, Bool.or_eq_true, Bool.and_eq_true,
    decide_eq_true_eq, beq_iff_eq]
  omega

/-- The feed comparator is transitive. -/
instance feedLE_isTrans : IsTrans (Key × Row) feedLE := by
  constructor
  intro a b c hab hbc
  simp only [feedLE, feedLeB, Bool.or_eq_true, Bool.and_eq_true,
    decide_eq_true_eq, beq_iff_eq] at hab hbc ⊢
  omega

/-- C5 counterexample: a store with two dated rows in which the row
placed first by `_query_jobs_for_feed` has the strictly smaller score
(its `posted_at` is later) — refuting "dated postings first, then by
score descending". -/
theorem feed_order_counterexample :
    _query_jobs_for_feed
      [ (("s", "1"), ⟨"t1", "c1", "", "u1", some 100, 0, 0, none, 0⟩),
        (("s", "2"), ⟨"t2", "c2", "", "u2", some 50, 0, 0, none, 5⟩) ] none =
      [ (("s", "1"), ⟨"t1", "c1", "", "u1", some 100, 0, 0, none, 0⟩),
        (("s", "2"), ⟨"t2", "c2", "", "u2", some 50, 0, 0, none, 5⟩) ] ∧
    (⟨"t1", "c1", "", "u1", some 100, 0, 0, none, 0⟩ : Row).posted_at ≠ none ∧
    (⟨"t2", "c2", "", "u2", some 50, 0, 0, none, 5⟩ : Row).posted_at ≠ none ∧
    (⟨"t1", "c1", "", "u1", some 100, 0, 0, none, 0⟩ : Row).score <
      (⟨"t2", "c2", "", "u2", some 50, 0, 0, none, 5⟩ : Row).score := by
  refine ⟨?_, by decide, by decide, by decide⟩
  decide

/-- C5 (amended): the posting feed returned by `_query_jobs_for_feed`
is ordered with dated postings first (non-NULL `posted_at` before
NULL), then by `posted_at` descending, then by `last_seen_at`
descending; the score does not participate in the ordering. -/
theorem feed_order_correct (rows : List (Key × Row)) (limit : Option Int) :
    List.Sorted feedLE (_query_jobs_for_feed rows limit) ∧
    (∀ a b : Key × Row, feedLE a b ↔
      (feedNullRank a.2 < feedNullRank b.2 ∨
        (feedNullRank a.2 = feedNullRank b.2 ∧
          (feedPostedVal b.2 < feedPostedVal a.2 ∨
            (feedPostedVal a.2 = feedPostedVal b.2 ∧
              b.2.last_seen_at ≤ a.2.last_seen_at))))) := by
  constructor
  · have hsorted := List.sorted_insertionSort feedLE rows
    unfold _query_jobs_for_feed
    match limit with
    | none => exact hsorted
    | some n =>
      by_cases hn : 0 < n
      · simp only [hn, if_true]
        exact List.Pairwise.sublist (List.take_sublist _ _) hsorted
      · simp only [hn, if_false]
        exact hsorted
  · intro a b
    simp only [feedLE, feedLeB, Bool.or_eq_true, Bool.and_eq_true,
      decide_eq_true_eq, beq_iff_eq]

/-- The SmartRecruiters pagination loop issues at most `fuel` requests. -/
theorem fetch_sr_offsets_length_le (gp : Nat → SRPage) :
    ∀ fuel offset, (fetch_smartrecruiters_offsets gp offset fuel).length ≤ fuel := by
  intro fuel
  induction fuel with
  | zero => intro o; simp [fetch_smartrecruiters_offsets]
  | succ n ih =>
    intro o
    simp only [fetch_smartrecruiters_offsets]
    split
    · simp
    · simp
    · split
      · split
        · simp
        · simpa using ih (o + 100)
      · simpa using ih (o + 100)

/-- A nonempty SmartRecruiters request trace starts at the initial
offset. -/
theorem fetch_sr_offsets_head (gp : Nat → SRPage) :
    ∀ fuel offset, fetch_smartrecruiters_offsets gp offset fuel = [] ∨
      ∃ l, fetch_smartrecruiters_offsets gp offset fuel = offset :: l := by
  intro fuel offset
  cases fuel with
  | zero => exact Or.inl rfl
  | succ n =>
    right
    simp only [fetch_smartrecruiters_offsets]
    split
    · exact ⟨[], rfl⟩
    · exact ⟨[], rfl⟩
    · split
      · split
        · exact ⟨[], rfl⟩
        · exact ⟨_, rfl⟩
      · exact ⟨_, rfl⟩

/-- SmartRecruiters offsets are requested in strictly ascending order. -/
theorem fetch_sr_offsets_chain (gp : Nat → SRPage) :
    ∀ fuel offset,
      List.Chain' (· < ·) (fetch_smartrecruiters_offsets gp offset fuel) := by
  intro fuel
  induction fuel with
  | zero => intro o; simp [fetch_smartrecruiters_offsets]
  | succ n ih =>
    intro o
    have hnext : ∀ y ∈ (fetch_smartrecruiters_offsets gp (o + 100) n).head?, o < y := by
      intro y hy
      rcases fetch_sr_offsets_head gp n (o + 100) with he | ⟨l, hl⟩
      · rw [he] at hy; simp at hy
      · rw [hl] at hy
        simp only [List.head?_cons, Option.mem_def, Option.some.injEq] at hy
        omega
    simp only [fetch_smartrecruiters_offsets]
    split
    · simp
    · simp
    · split
      · split
        · simp
        · exact List.chain'_cons'.mpr ⟨hnext, ih (o + 100)⟩
      · exact List.chain'_cons'.mpr ⟨hnext, ih (o + 100)⟩

/-- The Workday pagination loop issues at most `fuel` requests. -/
theorem fetch_wd_offsets_length_le (gw : Nat → Option WDPage) :
    ∀ fuel offset, (fetch_workday_offsets gw offset fuel).length ≤ fuel := by
  intro fuel
  induction fuel with
  | zero => intro o; simp [fetch_workday_offsets]
  | succ n ih =>
    intro o
    simp only [fetch_workday_offsets]
    split
    · simp
    · split
      · simp
      · simp
      · split
        · split
          · simp
          · split
            · simp
            · simpa using ih (o + 20)
        · split
          · simp
          · simpa using ih (o + 20)

/-- A nonempty Workday request trace starts at the initial offset. -/
theorem fetch_wd_offsets_head (gw : Nat → Option WDPage) :
    ∀ fuel offset, fetch_workday_offsets gw offset fuel = [] ∨
      ∃ l, fetch_workday_offsets gw offset fuel = offset :: l := by
  intro fuel offset
  cases fuel with
  | zero => exact Or.inl rfl
  | succ n =>
    right
    simp only [fetch_workday_offsets]
    split
    · exact ⟨[], rfl⟩
    · split
      · exact ⟨[], rfl⟩
      · exact ⟨[], rfl⟩
      · split
        · split
          · exact ⟨[], rfl⟩
          · split
            · exact ⟨[], rfl⟩
            · exact ⟨_, rfl⟩
        · split
          · exact ⟨[], rfl⟩
          · exact ⟨_, rfl⟩

/-- Workday offsets are requested in strictly ascending order. -/
theorem fetch_wd_offsets_chain (gw : Nat → Option WDPage) :
    ∀ fuel offset,
      List.Chain' (· < ·) (fetch_workday_offsets gw offset fuel) := by
  intro fuel
  induction fuel with
  | zero => intro o; simp [fetch_workday_offsets]
  | succ n ih =>
    intro o
    have hnext : ∀ y ∈ (fetch_workday_offsets gw (o + 20) n).head?, o < y := by
      intro y hy
      rcases fetch_wd_offsets_head gw n (o + 20) with he | ⟨l, hl⟩
      · rw [he] at hy; simp at hy
      · rw [hl] at hy
        simp only [List.head?_cons, Option.mem_def, Option.some.injEq] at hy
        omega
    simp only [fetch_workday_offsets]
    split
    · simp
    · split
      · simp
      · simp
      · split
        · split
          · simp
          · split
            · simp
            · exact List.chain'_cons'.mpr ⟨hnext, ih (o + 20)⟩
        · split
          · simp
          · exact List.chain'_cons'.mpr ⟨hnext, ih (o + 20)⟩

/-- C8: both paginated connectors terminate on every upstream
behaviour: each performs at most its 50-page safety cap of fetches per
endpoint (the full-page adversary hits the cap exactly), stops as soon
as the upstream signals an empty/short page, a malformed page, or that
the total count is reached, and requests pages in strictly ascending
offset order. -/
theorem pagination_terminates (gp : Nat → SRPage) (gw : Nat → Option WDPage)
    (offset fuel : Nat) :
    ((fetch_smartrecruiters_offsets gp 0 SR_MAX_PAGES).length ≤ 50) ∧
    List.Chain' (· < ·) (fetch_smartrecruiters_offsets gp offset fuel) ∧
    (srStopSignal (gp offset) offset →
      fetch_smartrecruiters_offsets gp offset (fuel + 1) = [offset]) ∧
    ((fetch_smartrecruiters_offsets (fun _ => ⟨some 100, none⟩) 0
      SR_MAX_PAGES).length = 50) ∧
    ((fetch_workday_offsets gw 0 WD_MAX_PAGES).length ≤ 50) ∧
    List.Chain' (· < ·) (fetch_workday_offsets gw offset fuel) ∧
    (wdStopSignal (gw offset) offset →
      fetch_workday_offsets gw offset (fuel + 1) = [offset]) ∧
    ((fetch_workday_offsets (fun _ => some ⟨some 20, none⟩) 0
      WD_MAX_PAGES).length = 50) := by
  refine ⟨fetch_sr_offsets_length_le gp SR_MAX_PAGES 0, fetch_sr_offsets_chain gp fuel offset,
    ?_, by decide, fetch_wd_offsets_length_le gw WD_MAX_PAGES 0,
    fetch_wd_offsets_chain gw fuel offset, ?_, by decide⟩
  · intro h
    rcases h with h | h | ⟨t, ht, hge⟩
    · simp [fetch_smartrecruiters_offsets, h]
    · simp [fetch_smartrecruiters_offsets, h]
    · cases hcl : (gp offset).contentLen with
      | none => simp [fetch_smartrecruiters_offsets, hcl]
      | some k =>
        cases k with
        | zero => simp [fetch_smartrecruiters_offsets, hcl]
        | succ m => simp [fetch_smartrecruiters_offsets, hcl, ht, hge]
  · intro h
    rcases h with h | ⟨q, hq, hcase⟩
    · simp [fetch_workday_offsets, h]
    · rcases hcase with h | h | ⟨t, ht, hge⟩ | ⟨m, hm, hlt⟩
      · simp [fetch_workday_offsets, hq, h]
      · simp [fetch_workday_offsets, hq, h]
      · cases hpl : q.postingsLen with
        | none => simp [fetch_workday_offsets, hq, hpl]
        | some k =>
          cases k with
          | zero => simp [fetch_workday_offsets, hq, hpl]
          | succ m => simp [fetch_workday_offsets, hq, hpl, ht, hge]
      · cases hpl : q.postingsLen with
        | none => simp [fetch_workday_offsets, hq, hpl]
        | some k =>
          cases k with
          | zero => simp [fetch_workday_offsets, hq, hpl]
          | succ u =>
            rw [hpl] at hm
            have hu : u + 1 < 20 := by
              have heq : u + 1 = m := by injection hm
              omega
            cases htot : q.total with
            | none => simp [fetch_workday_offsets, hq, hpl, htot, hu]
            | some t =>
              by_cases hge : ((offset : Int) + 20) ≥ t
              · simp [fetch_workday_offsets, hq, hpl, htot, hge]
              · simp [fetch_workday_offsets, hq, hpl, htot, hge, hu]

theorem pagination_terminates_witness :
    srStopSignal (⟨some 0, none⟩ : SRPage) 0 ∧
    fetch_smartrecruiters_offsets (fun _ => ⟨some 0, none⟩) 0 1 = [0] ∧
    wdStopSignal (some ⟨some 5, some 300⟩) 0 ∧
    fetch_workday_offsets (fun _ => some ⟨some 5, some 300⟩) 0 1 = [0] := by
  have hsr := (pagination_terminates (fun _ => ⟨some 0, none⟩)
    (fun _ => some ⟨some 5, some 300⟩) 0 0).2.2.1
  have hwd := (pagination_terminates (fun _ => ⟨some 0, none⟩)
    (fun _ => some ⟨some 5, some 300⟩) 0 0).2.2.2.2.2.2.1
  refine ⟨Or.inr (Or.inl rfl), hsr (Or.inr (Or.inl rfl)), ?_, ?_⟩
  · exact Or.inr ⟨⟨some 5, some 300⟩, rfl, Or.inr (Or.inr (Or.inr ⟨5, rfl, by omega⟩))⟩
  · exact hwd (Or.inr ⟨⟨some 5, some 300⟩, rfl, Or.inr (Or.inr (Or.inr ⟨5, rfl, by omega⟩))⟩)

/-- C3: URL validation rejects, before any HTTP request is issued,
every URL whose scheme is not http/https, that lacks a hostname, or
whose hostname resolves (on a fresh, uncached lookup) to any address
that is loopback, link-local, private, reserved, unspecified,
multicast, or inside the explicit deny-list — one blocked resolved
address rejects the whole hostname for the call.  In particular
`127.0.0.1`, `10.0.0.5`, `::1`, IPv6 link-local (`fe80::/10`) and IPv6
private (`fc00::/7`) addresses are all blocked. -/
theorem ssrf_rejected_before_fetch (u : UrlParts) (cached : Option Bool)
    (resolved : Option (List (Option IPAddr))) (infos : List (Option IPAddr))
    (ip : Option IPAddr) (resp : Nat → HttpResp) (maxRetries : Nat) (a : IPAddr) :
    (u.scheme ≠ "http" → u.scheme ≠ "https" →
      _validate_request_url u cached resolved = .error "Blocked non-http(s) URL") ∧
    (u.hostname = none →
      ∃ e, _validate_request_url u cached resolved = .error e) ∧
    (cached = none → resolved = some infos → ip ∈ infos →
      _ip_is_blocked ip = true →
      ∃ e, _validate_request_url u cached resolved = .error e) ∧
    (∀ e, _validate_request_url u cached resolved = .error e →
      http_get_json_with_retry u cached resolved resp maxRetries = (0, .error e)) ∧
    ((ipIsLoopback a || ipIsLinkLocal a || ipIsPrivate a || ipIsReserved a ||
        ipIsUnspecified a || ipIsMulticast a) = true →
      _ip_is_blocked (some a) = true) ∧
    (BLOCKED_NETWORKS.any (fun net => ipInNet a net) = true →
      _ip_is_blocked (some a) = true) ∧
    (_ip_is_blocked (some (.v4 (mkIPv4 127 0 0 1))) = true) ∧
    (_ip_is_blocked (some (.v4 (mkIPv4 10 0 0 5))) = true) ∧
    (_ip_is_blocked (some (.v6 1)) = true) ∧
    (∀ n, inNet6 n (0xfe80 * 2 ^ 112) 10 = true →
      _ip_is_blocked (some (.v6 n)) = true) ∧
    (∀ n, inNet6 n (0xfc * 2 ^ 120) 7 = true →
      _ip_is_blocked (some (.v6 n)) = true) := by
  refine ⟨?_, ?_, ?_, ?_, ?_, ?_, by decide, by decide, by decide, ?_, ?_⟩
  · intro h1 h2
    unfold _validate_request_url
    rw [if_pos ⟨h1, h2⟩]
  · intro hh
    unfold _validate_request_url
    by_cases hs : u.scheme ≠ "http" ∧ u.scheme ≠ "https"
    · exact ⟨_, by rw [if_pos hs]⟩
    · rw [if_neg hs, hh]
      exact ⟨_, rfl⟩
  · intro hcache hres hmem hblk
    unfold _validate_request_url
    by_cases hs : u.scheme ≠ "http" ∧ u.scheme ≠ "https"
    · exact ⟨_, by rw [if_pos hs]⟩
    · rw [if_neg hs]
      cases hhost : u.hostname with
      | none => exact ⟨_, rfl⟩
      | some h =>
        by_cases hhe : h = ""
        · exact ⟨"Blocked URL with no hostname", by subst hhe; simp⟩
        · have hsafe : _hostname_is_safe h cached resolved = false := by
            subst hcache
            subst hres
            unfold _hostname_is_safe
            by_cases hnorm : String.mk (lowerChars (stripChars h.toList)) = ""
            · rw [if_pos hnorm]
            · rw [if_neg hnorm]
              cases infos with
              | nil => cases hmem
              | cons x xs =>
                simp only [Bool.not_eq_false']
                exact List.any_eq_true.mpr ⟨ip, hmem, hblk⟩
          exact ⟨"Blocked unsafe hostname", by simp [hhe, hsafe]⟩
  · intro e he
    unfold http_get_json_with_retry
    rw [he]
  · intro h
    simp only [_ip_is_blocked, Bool.or_eq_true] at h ⊢
    tauto
  · intro h
    simp only [_ip_is_blocked, Bool.or_eq_true]
    tauto
  · intro n h
    have hany : (BLOCKED_NETWORKS.any fun net => ipInNet (IPAddr.v6 n) net) = true :=
      List.any_eq_true.mpr ⟨.n6 (0xfe80 * 2 ^ 112) 10, by decide, h⟩
    simp [_ip_is_blocked, hany]
  · intro n h
    have hany : (BLOCKED_NETWORKS.any fun net => ipInNet (IPAddr.v6 n) net) = true :=
      List.any_eq_true.mpr ⟨.n6 (0xfc * 2 ^ 120) 7, by decide, h⟩
    simp [_ip_is_blocked, hany]

theorem ssrf_rejected_before_fetch_witness :
    _validate_request_url ⟨"ftp", some "x", "x"⟩ none none =
      .error "Blocked non-http(s) URL" ∧
    (∃ e, _validate_request_url ⟨"http", some "internal.example", "internal.example"⟩
      none (some [some (.v4 (mkIPv4 127 0 0 1))]) = .error e) ∧
    http_get_json_with_retry ⟨"ftp", some "x", "x"⟩ none none
      (fun _ => .timeout) 5 = (0, .error "Blocked non-http(s) URL") := by
  have h1 := (ssrf_rejected_before_fetch ⟨"ftp", some "x", "x"⟩ none none []
    none (fun _ => .timeout) 5 (.v4 0)).1 (by decide) (by decide)
  have h3 := (ssrf_rejected_before_fetch ⟨"ftp", some "x", "x"⟩ none none []
    none (fun _ => .timeout) 5 (.v4 0)).2.2.2.1 _ h1
  have h2 := (ssrf_rejected_before_fetch
    ⟨"http", some "internal.example", "internal.example"⟩ none
    (some [some (.v4 (mkIPv4 127 0 0 1))]) [some (.v4 (mkIPv4 127 0 0 1))]
    (some (.v4 (mkIPv4 127 0 0 1))) (fun _ => .timeout) 5 (.v4 0)).2.2.1
    rfl rfl (by simp) (by decide)
  exact ⟨h1, h2, h3⟩

/-- `jobIsValid` unpacked to the five non-emptiness conditions. -/
theorem jobIsValid_iff (j : Job) :
    jobIsValid j = true ↔ j.source ≠ "" ∧ j.job_id ≠ "" ∧ j.title ≠ "" ∧
      j.company ≠ "" ∧ j.url ≠ "" := by
  simp [jobIsValid]
  tauto

/-- One upsert step preserves non-emptiness of key and display fields. -/
theorem upsertOne_nonempty (now : Int) (st : Store) (j : Job)
    (hinv : ∀ k r, st k = some r → k.1 ≠ "" ∧ k.2 ≠ "" ∧ r.title ≠ "" ∧
      r.company ≠ "" ∧ r.url ≠ "") :
    ∀ k r, upsertOne now st j k = some r → k.1 ≠ "" ∧ k.2 ≠ "" ∧
      r.title ≠ "" ∧ r.company ≠ "" ∧ r.url ≠ "" := by
  intro k r h
  unfold upsertOne at h
  by_cases h1 : jobIsValid j
  · by_cases h2 : is_stale_posting j.posted_at now
    · rw [if_neg (by simp [h1]), if_pos h2] at h
      exact hinv k r h
    · rw [if_neg (by simp [h1]), if_neg (by simp [h2])] at h
      by_cases hk : k = j.key
      · rw [if_pos hk] at h
        obtain ⟨hs, hi, ht, hc, hu⟩ := (jobIsValid_iff j).mp h1
        cases hst : st j.key with
        | none =>
          rw [hst] at h
          injection h with h
          subst h
          subst hk
          exact ⟨hs, hi, ht, hc, hu⟩
        | some r0 =>
          rw [hst] at h
          injection h with h
          subst h
          obtain ⟨_, _, ht0, hc0, hu0⟩ := hinv j.key r0 hst
          subst hk
          have hkey := hinv j.key r0 hst
          exact ⟨hkey.1, hkey.2.1, ht0, hc0, hu0⟩
      · rw [if_neg hk] at h
        exact hinv k r h
  · rw [if_pos (by simp [h1])] at h
    exact hinv k r h

/-- C10: every row inserted or updated by `upsert_jobs` has non-empty
`source`, `job_id`, `title`, `company` and `url`: a job with any of
these empty is skipped entirely (counted `skipped_invalid`, store
unchanged), so the non-emptiness invariant of the store is preserved
by every merge pass. -/
theorem store_nonempty_invariant (now : Int) (js : List Job) (st : Store)
    (hinv : ∀ k r, st k = some r → k.1 ≠ "" ∧ k.2 ≠ "" ∧ r.title ≠ "" ∧
      r.company ≠ "" ∧ r.url ≠ "") :
    (∀ k r, upsertStore now st js k = some r → k.1 ≠ "" ∧ k.2 ≠ "" ∧
      r.title ≠ "" ∧ r.company ≠ "" ∧ r.url ≠ "") ∧
    (∀ (j : Job) (c : UpsertCounts), jobIsValid j = false →
      upsertStep now (st, c) j =
        (st, { c with skipped_invalid := c.skipped_invalid + 1 })) := by
  constructor
  · induction js generalizing st with
    | nil => exact fun k r h => hinv k r h
    | cons j rest ih =>
      exact fun k r h => ih (upsertOne now st j)
        (upsertOne_nonempty now st j hinv) k r h
  · intro j c hj
    unfold upsertStep
    rw [if_pos (by simp [hj])]

theorem store_nonempty_invariant_witness :
    ("greenhouse" : String) ≠ "" ∧
    (insertedRow ⟨"greenhouse", "1", "Data Analyst", "Acme", "Remote", "u",
      none, 0, ""⟩ (score_job "Data Analyst" "Remote" "") 0).title ≠ "" ∧
    upsertStep 0 ((fun _ => none : Store), ⟨0, 0, 0, 0⟩)
      ⟨"", "1", "T", "C", "L", "u", none, 0, ""⟩ =
      ((fun _ => none : Store), ⟨0, 0, 0, 1⟩) := by
  have h := store_nonempty_invariant 0
    [⟨"greenhouse", "1", "Data Analyst", "Acme", "Remote", "u", none, 0, ""⟩]
    (fun _ => none) (fun k r hr => nomatch hr)
  have h1 := h.1 ("greenhouse", "1")
    (insertedRow ⟨"greenhouse", "1", "Data Analyst", "Acme", "Remote", "u",
      none, 0, ""⟩ (score_job "Data Analyst" "Remote" "") 0) (by decide)
  have h2 := h.2 ⟨"", "1", "T", "C", "L", "u", none, 0, ""⟩ ⟨0, 0, 0, 0⟩ (by decide)
  exact ⟨h1.1, h1.2.2.1, h2⟩

/-! ### Monotonic enrichment across merges -/

/-- The stored `description` counts as empty when it is NULL or `''`
(the condition tested by the upsert's CASE expression). -/
def descIsEmpty (r : Row) : Prop :=
  r.description = none ∨ r.description = some ""

instance (r : Row) : Decidable (descIsEmpty r) := by
  unfold descIsEmpty
  infer_instance

/-- How a stored row may change across merges: `posted_at` moves only
from absent to present (a present value is never altered),
`description` moves only from empty to non-empty, and `score` never
decreases. -/
def rowEvolves (r r' : Row) : Prop :=
  (r'.posted_at = r.posted_at ∨ r.posted_at = none) ∧
  (r'.description = r.description ∨ (descIsEmpty r ∧ ¬ descIsEmpty r')) ∧
  r.score ≤ r'.score

/-- A sequence of `upsert_jobs` passes, each with its own clock. -/
def runBatches (batches : List (Int × List Job)) (st : Store) : Store :=
  batches.foldl (fun s b => upsertStore b.1 s b.2) st

theorem rowEvolves_refl (r : Row) : rowEvolves r r :=
  ⟨Or.inl rfl, Or.inl rfl, le_refl _⟩

theorem rowEvolves_trans {a b c : Row} (hab : rowEvolves a b)
    (hbc : rowEvolves b c) : rowEvolves a c := by
  obtain ⟨p1, d1, s1⟩ := hab
  obtain ⟨p2, d2, s2⟩ := hbc
  refine ⟨?_, ?_, le_trans s1 s2⟩
  · rcases p1 with h1 | h1 <;> rcases p2 with h2 | h2
    · exact Or.inl (h2.trans h1)
    · exact Or.inr (by rw [← h1]; exact h2)
    · exact Or.inr h1
    · exact Or.inr h1
  · rcases d1 with h1 | h1
    · rcases d2 with h2 | h2
      · exact Or.inl (h2.trans h1)
      · refine Or.inr ⟨?_, h2.2⟩
        unfold descIsEmpty at h2 ⊢
        rw [← h1]
        exact h2.1
    · rcases d2 with h2 | h2
      · refine Or.inr ⟨h1.1, ?_⟩
        unfold descIsEmpty at h1 ⊢
        rw [h2]
        exact h1.2
      · exact Or.inr ⟨h1.1, h2.2⟩

/-- The upsert's UPDATE arm realises exactly the evolution relation. -/
theorem mergedRow_evolves (r : Row) (j : Job) (sc now : Int) :
    rowEvolves r (mergedRow r j sc now) := by
  refine ⟨?_, ?_, le_max_left _ _⟩
  · unfold mergedRow
    cases hp : r.posted_at with
    | none => exact Or.inr rfl
    | some p => exact Or.inl (by simp [hp])
  · unfold mergedRow
    by_cases hc : (r.description = none ∨ r.description = some "") ∧
        j.description ≠ ""
    · right
      rw [if_pos hc]
      refine ⟨hc.1, ?_⟩
      unfold descIsEmpty
      simp only [not_or]
      exact ⟨by simp, by simp [hc.2]⟩
    · left
      rw [if_neg hc]

/-- Any single upsert step evolves every stored row. -/
theorem upsertOne_evolves (now : Int) (st : Store) (j : Job) (k : Key)
    (r : Row) (h : st k = some r) :
    ∃ r', upsertOne now st j k = some r' ∧ rowEvolves r r' := by
  unfold upsertOne
  by_cases h1 : jobIsValid j
  · by_cases h2 : is_stale_posting j.posted_at now
    · exact ⟨r, by simp [h1, h2, h], rowEvolves_refl r⟩
    · by_cases hk : k = j.key
      · refine ⟨mergedRow r j (score_job j.title j.location j.description) now, ?_,
          mergedRow_evolves r j _ now⟩
        rw [if_neg (by simp [h1]), if_neg (by simp [h2]), if_pos hk,
          show st j.key = some r from hk ▸ h]
      · exact ⟨r, by simp [h1, h2, hk, h], rowEvolves_refl r⟩
  · exact ⟨r, by simp [h1, h], rowEvolves_refl r⟩

/-- A whole upsert pass evolves every stored row. -/
theorem upsertStore_evolves (now : Int) (js : List Job) (st : Store)
    (k : Key) (r : Row) (h : st k = some r) :
    ∃ r', upsertStore now st js k = some r' ∧ rowEvolves r r' := by
  induction js generalizing st r with
  | nil => exact ⟨r, h, rowEvolves_refl r⟩
  | cons j rest ih =>
    obtain ⟨r1, hr1, he1⟩ := upsertOne_evolves now st j k r h
    obtain ⟨r2, hr2, he2⟩ := ih (upsertOne now st j) r1 hr1
    exact ⟨r2, hr2, rowEvolves_trans he1 he2⟩

/-- Any sequence of upsert passes evolves every stored row. -/
theorem runBatches_evolves (batches : List (Int × List Job)) (st : Store)
    (k : Key) (r : Row) (h : st k = some r) :
    ∃ r', runBatches batches st k = some r' ∧ rowEvolves r r' := by
  induction batches generalizing st r with
  | nil => exact ⟨r, h, rowEvolves_refl r⟩
  | cons b rest ih =>
    obtain ⟨r1, hr1, he1⟩ := upsertStore_evolves b.1 b.2 st k r h
    obtain ⟨r2, hr2, he2⟩ := ih (upsertStore b.1 st b.2) r1 hr1
    exact ⟨r2, hr2, rowEvolves_trans he1 he2⟩

/-- C1: merging a valid, fresh job whose natural key already exists
updates `last_seen_at` always, keeps a known `posted_at` (filling it
only when it was absent), replaces `description` only when the stored
one was empty and the incoming one non-empty, takes the maximum of the
stored and newly computed score, and leaves `title`, `company`,
`location`, `url`, `first_seen_at` (and every other key) unchanged;
consequently across any sequence of merge passes `posted_at` moves
only absent-to-present, `description` only empty-to-non-empty, and
`score` is non-decreasing per key. -/
theorem upsert_merge_semantics (now : Int) (st : Store) (j : Job) (r : Row)
    (hvalid : jobIsValid j = true)
    (hfresh : is_stale_posting j.posted_at now = false)
    (hrow : st j.key = some r) :
    (upsertOne now st j j.key =
      some (mergedRow r j (score_job j.title j.location j.description) now)) ∧
    (∀ k, k ≠ j.key → upsertOne now st j k = st k) ∧
    ((mergedRow r j (score_job j.title j.location j.description) now).last_seen_at
        = now ∧
      (r.posted_at = none →
        (mergedRow r j (score_job j.title j.location j.description) now).posted_at
          = j.posted_at) ∧
      (∀ p, r.posted_at = some p →
        (mergedRow r j (score_job j.title j.location j.description) now).posted_at
          = some p) ∧
      (descIsEmpty r → j.description ≠ "" →
        (mergedRow r j (score_job j.title j.location j.description) now).description
          = some j.description) ∧
      (¬ descIsEmpty r →
        (mergedRow r j (score_job j.title j.location j.description) now).description
          = r.description) ∧
      (j.description = "" →
        (mergedRow r j (score_job j.title j.location j.description) now).description
          = r.description) ∧
      (mergedRow r j (score_job j.title j.location j.description) now).score
        = max r.score (score_job j.title j.location j.description) ∧
      (mergedRow r j (score_job j.title j.location j.description) now).title
        = r.title ∧
      (mergedRow r j (score_job j.title j.location j.description) now).company
        = r.company ∧
      (mergedRow r j (score_job j.title j.location j.description) now).location
        = r.location ∧
      (mergedRow r j (score_job j.title j.location j.description) now).url
        = r.url ∧
      (mergedRow r j (score_job j.title j.location j.description) now).first_seen_at
        = r.first_seen_at) ∧
    (∀ (batches : List (Int × List Job)) (st0 : Store) (k : Key) (r0 : Row),
      st0 k = some r0 →
      ∃ r1, runBatches batches st0 k = some r1 ∧ rowEvolves r0 r1) := by
  refine ⟨?_, ?_, ⟨rfl, ?_, ?_, ?_, ?_, ?_, rfl, rfl, rfl, rfl, rfl, rfl⟩,
    runBatches_evolves⟩
  · unfold upsertOne
    rw [if_neg (by simp [hvalid]), if_neg (by simp [hfresh]), if_pos rfl, hrow]
  · intro k hk
    unfold upsertOne
    rw [if_neg (by simp [hvalid]), if_neg (by simp [hfresh]), if_neg hk]
  · intro hp
    unfold mergedRow
    simp [hp]
  · intro p hp
    unfold mergedRow
    simp [hp]
  · intro hd hne
    unfold mergedRow
    have hc : (r.description = none ∨ r.description = some "") ∧
        j.description ≠ "" := ⟨hd, hne⟩
    rw [if_pos hc]
  · intro hd
    unfold mergedRow
    rw [if_neg (fun hc => hd hc.1)]
  · intro hd
    unfold mergedRow
    rw [if_neg (fun hc => hc.2 hd)]

theorem upsert_merge_semantics_witness :
    jobIsValid ⟨"greenhouse", "1", "Data Analyst", "Acme", "Remote", "u",
      some (-100), 5, "python"⟩ = true ∧
    is_stale_posting (some (-100)) 0 = false ∧
    upsertOne 0
      (fun k => if k = ("greenhouse", "1") then
        some ⟨"T", "C", "L", "U", none, 0, 0, some "", 0⟩ else none)
      ⟨"greenhouse", "1", "Data Analyst", "Acme", "Remote", "u",
        some (-100), 5, "python"⟩ ("greenhouse", "1") =
      some (mergedRow ⟨"T", "C", "L", "U", none, 0, 0, some "", 0⟩
        ⟨"greenhouse", "1", "Data Analyst", "Acme", "Remote", "u",
          some (-100), 5, "python"⟩
        (score_job "Data Analyst" "Remote" "python") 0) ∧
    (mergedRow ⟨"T", "C", "L", "U", none, 0, 0, some "", 0⟩
      ⟨"greenhouse", "1", "Data Analyst", "Acme", "Remote", "u",
        some (-100), 5, "python"⟩
      (score_job "Data Analyst" "Remote" "python") 0).title = "T" := by
  have h := upsert_merge_semantics 0
    (fun k => if k = ("greenhouse", "1") then
      some ⟨"T", "C", "L", "U", none, 0, 0, some "", 0⟩ else none)
    ⟨"greenhouse", "1", "Data Analyst", "Acme", "Remote", "u",
      some (-100), 5, "python"⟩
    ⟨"T", "C", "L", "U", none, 0, 0, some "", 0⟩
    (by decide) (by decide) (by decide)
  exact ⟨by decide, by decide, h.1, h.2.2.1.2.2.2.2.2.2.2.1⟩

/-! ### Idempotence of the upsert pass

Strategy: after a first pass at time `now1`, the store "absorbs" every
job of the list — merging the job again changes nothing but
`last_seen_at`.  Absorption is preserved by arbitrary further upsert
steps, and a pass over absorbed jobs only bumps `last_seen_at`.
Staleness is monotone in the clock, so a job fresh at the later
`now2` was fresh at `now1` and therefore reached the store. -/

/-- Staleness is monotone: a posting fresh at a later clock was fresh
at any earlier clock. -/
theorem is_stale_mono (p : Option Int) (now1 now2 : Int) (h : now1 ≤ now2)
    (hf : is_stale_posting p now2 = false) :
    is_stale_posting p now1 = false := by
  cases p with
  | none => rfl
  | some q =>
    simp only [is_stale_posting, MAX_POSTING_AGE_DAYS,
      decide_eq_false_iff_not, not_lt] at hf ⊢
    omega

/-- Value of an upsert step at the job's own key (valid, fresh job). -/
theorem upsertOne_key_eq (now : Int) (st : Store) (j : Job)
    (hv : jobIsValid j = true)
    (hf : is_stale_posting j.posted_at now = false) :
    upsertOne now st j j.key =
      some (match st j.key with
        | none => insertedRow j (score_job j.title j.location j.description) now
        | some r => mergedRow r j (score_job j.title j.location j.description) now) := by
  unfold upsertOne
  rw [if_neg (by simp [hv]), if_neg (by simp [hf])]
  exact if_pos rfl

/-- Value of an upsert step at any other key. -/
theorem upsertOne_other_eq (now : Int) (st : Store) (j : Job) (k : Key)
    (hk : k ≠ j.key) : upsertOne now st j k = st k := by
  unfold upsertOne
  by_cases h1 : jobIsValid j
  · by_cases h2 : is_stale_posting j.posted_at now <;> simp [h1, h2, hk]
  · simp [h1]

/-- An invalid job is a no-op on the store. -/
theorem upsertOne_invalid (now : Int) (st : Store) (j : Job)
    (h : jobIsValid j = false) : upsertOne now st j = st := by
  unfold upsertOne
  simp [h]

/-- A stale job is a no-op on the store. -/
theorem upsertOne_stale (now : Int) (st : Store) (j : Job)
    (h : is_stale_posting j.posted_at now = true) :
    upsertOne now st j = st := by
  unfold upsertOne
  by_cases h1 : jobIsValid j <;> simp [h1, h]

/-- The store absorbs `j` (w.r.t. clock `now2`): if `j` is valid and
fresh, its key holds a row that merging `j` cannot change except for
`last_seen_at` — `posted_at` already at least as informative,
description already non-empty unless `j`'s is empty, score already at
least `j`'s. -/
def absorbs (st : Store) (now2 : Int) (j : Job) : Prop :=
  jobIsValid j = true → is_stale_posting j.posted_at now2 = false →
  ∃ r, st j.key = some r ∧
    (j.posted_at = none ∨ r.posted_at ≠ none) ∧
    (j.description = "" ∨ ¬ descIsEmpty r) ∧
    score_job j.title j.location j.description ≤ r.score

/-- Merging into an absorbing row only bumps `last_seen_at`. -/
theorem mergedRow_noop (r : Row) (j : Job) (sc now : Int)
    (hp : j.posted_at = none ∨ r.posted_at ≠ none)
    (hd : j.description = "" ∨ ¬ descIsEmpty r)
    (hs : sc ≤ r.score) :
    mergedRow r j sc now = { r with last_seen_at := now } := by
  unfold mergedRow
  obtain ⟨rt, rc, rl, ru, rp, rf, rls, rd, rs⟩ := r
  simp only [descIsEmpty] at hp hd
  simp only [Row.mk.injEq, true_and, and_true]
  refine ⟨?_, ?_, max_eq_left hs⟩
  · cases rp with
    | some p => rfl
    | none =>
      rcases hp with h | h
      · exact h
      · exact absurd rfl h
  · by_cases hc : (rd = none ∨ rd = some "") ∧ j.description ≠ ""
    · rcases hd with h | h
      · exact absurd h hc.2
      · exact absurd hc.1 h
    · rw [if_neg hc]

/-- Processing `j` at `now1` makes the store absorb `j` for every later
clock. -/
theorem absorbs_after_upsertOne (now1 now2 : Int) (hle : now1 ≤ now2)
    (st : Store) (j : Job) : absorbs (upsertOne now1 st j) now2 j := by
  intro hv hf2
  have hf1 := is_stale_mono j.posted_at now1 now2 hle hf2
  cases hst : st j.key with
  | none =>
    refine ⟨insertedRow j (score_job j.title j.location j.description) now1,
      by rw [upsertOne_key_eq now1 st j hv hf1, hst], ?_, ?_, le_refl _⟩
    · by_cases hp : j.posted_at = none
      · exact Or.inl hp
      · exact Or.inr hp
    · by_cases hd : j.description = ""
      · exact Or.inl hd
      · right
        simp only [descIsEmpty, insertedRow, not_or]
        exact ⟨by simp, by simp [hd]⟩
  | some r0 =>
    refine ⟨mergedRow r0 j (score_job j.title j.location j.description) now1,
      by rw [upsertOne_key_eq now1 st j hv hf1, hst], ?_, ?_, le_max_right _ _⟩
    · by_cases hp : j.posted_at = none
      · exact Or.inl hp
      · right
        simp only [mergedRow]
        cases hr0 : r0.posted_at with
        | some p => simp
        | none => simpa using hp
    · by_cases hd : j.description = ""
      · exact Or.inl hd
      · right
        by_cases hc : (r0.description = none ∨ r0.description = some "") ∧
            j.description ≠ ""
        · simp only [descIsEmpty, mergedRow, if_pos hc, not_or]
          exact ⟨by simp, by simp [hd]⟩
        · have hr0 : ¬ (r0.description = none ∨ r0.description = some "") :=
            fun hem => hc ⟨hem, hd⟩
          simp only [descIsEmpty, mergedRow, if_neg hc]
          exact hr0

/-- Absorption survives any later upsert step (by any job, any clock). -/
theorem absorbs_preserved_upsertOne (now' now2 : Int) (st : Store)
    (j j' : Job) (h : absorbs st now2 j) :
    absorbs (upsertOne now' st j') now2 j := by
  intro hv hf
  obtain ⟨r, hr, hp, hd, hs⟩ := h hv hf
  cases hval : jobIsValid j' with
  | false =>
    rw [upsertOne_invalid now' st j' hval]
    exact ⟨r, hr, hp, hd, hs⟩
  | true =>
    cases hstale : is_stale_posting j'.posted_at now' with
    | true =>
      rw [upsertOne_stale now' st j' hstale]
      exact ⟨r, hr, hp, hd, hs⟩
    | false =>
      by_cases hk : j.key = j'.key
      · have hstk : st j'.key = some r := hk ▸ hr
        refine ⟨mergedRow r j' (score_job j'.title j'.location j'.description) now',
          ?_, ?_, ?_, hs.trans (le_max_left _ _)⟩
        · rw [hk, upsertOne_key_eq now' st j' hval hstale, hstk]
        · rcases hp with h0 | h0
          · exact Or.inl h0
          · right
            simp only [mergedRow]
            cases hr0 : r.posted_at with
            | some p => simp
            | none => exact absurd hr0 h0
        · rcases hd with h0 | h0
          · exact Or.inl h0
          · right
            have hc : ¬ ((r.description = none ∨ r.description = some "") ∧
                j'.description ≠ "") := by
              intro hc
              exact h0 hc.1
            simp only [descIsEmpty, mergedRow, if_neg hc]
            simpa [descIsEmpty] using h0
      · rw [upsertOne_other_eq now' st j' j.key hk]
        exact ⟨r, hr, hp, hd, hs⟩

/-- Absorption survives a whole later upsert pass. -/
theorem absorbs_preserved_upsertStore (now' now2 : Int) (st : Store)
    (js : List Job) (j : Job) (h : absorbs st now2 j) :
    absorbs (upsertStore now' st js) now2 j := by
  induction js generalizing st with
  | nil => exact h
  | cons a rest ih =>
    exact ih (upsertOne now' st a) (absorbs_preserved_upsertOne now' now2 st j a h)

/-- After a pass at `now1`, the store absorbs every job of the list
for every later clock `now2`. -/
theorem all_absorbed (now1 now2 : Int) (hle : now1 ≤ now2) :
    ∀ (js : List Job) (st : Store) (j : Job), j ∈ js →
      absorbs (upsertStore now1 st js) now2 j := by
  intro js
  induction js with
  | nil => intro st j hj; cases hj
  | cons a rest ih =>
    intro st j hj
    rcases List.mem_cons.mp hj with rfl | hj'
    · exact absorbs_preserved_upsertStore now1 now2 (upsertOne now1 st j) rest j
        (absorbs_after_upsertOne now1 now2 hle st j)
    · exact ih (upsertOne now1 st a) j hj'

/-- All row fields except `last_seen_at` agree. -/
def fieldsEqExceptLastSeen (r r' : Row) : Prop :=
  r'.title = r.title ∧ r'.company = r.company ∧ r'.location = r.location ∧
  r'.url = r.url ∧ r'.posted_at = r.posted_at ∧
  r'.first_seen_at = r.first_seen_at ∧ r'.description = r.description ∧
  r'.score = r.score

/-- The second store has exactly the same rows as the first, with every
field unchanged except that `last_seen_at` may have advanced to `now2`. -/
def storeStableExceptLastSeen (st st' : Store) (now2 : Int) : Prop :=
  ∀ k, (st k = none ↔ st' k = none) ∧
    (∀ r r', st k = some r → st' k = some r' →
      fieldsEqExceptLastSeen r r' ∧
      (r'.last_seen_at = r.last_seen_at ∨ r'.last_seen_at = now2))

theorem storeStable_refl (st : Store) (now2 : Int) :
    storeStableExceptLastSeen st st now2 := by
  intro k
  refine ⟨Iff.rfl, ?_⟩
  intro r r' h h'
  rw [h] at h'
  injection h' with h''
  subst h''
  exact ⟨⟨rfl, rfl, rfl, rfl, rfl, rfl, rfl, rfl⟩, Or.inl rfl⟩

theorem storeStable_trans {st1 st2 st3 : Store} {now2 : Int}
    (h12 : storeStableExceptLastSeen st1 st2 now2)
    (h23 : storeStableExceptLastSeen st2 st3 now2) :
    storeStableExceptLastSeen st1 st3 now2 := by
  intro k
  obtain ⟨hn12, hr12⟩ := h12 k
  obtain ⟨hn23, hr23⟩ := h23 k
  refine ⟨hn12.trans hn23, ?_⟩
  intro r r' h1 h3
  cases h2 : st2 k with
  | none =>
    rw [hn23.mp h2] at h3
    cases h3
  | some rm =>
    obtain ⟨f12, l12⟩ := hr12 r rm h1 h2
    obtain ⟨f23, l23⟩ := hr23 rm r' h2 h3
    refine ⟨⟨f23.1.trans f12.1, f23.2.1.trans f12.2.1,
      f23.2.2.1.trans f12.2.2.1, f23.2.2.2.1.trans f12.2.2.2.1,
      f23.2.2.2.2.1.trans f12.2.2.2.2.1,
      f23.2.2.2.2.2.1.trans f12.2.2.2.2.2.1,
      f23.2.2.2.2.2.2.1.trans f12.2.2.2.2.2.2.1,
      f23.2.2.2.2.2.2.2.trans f12.2.2.2.2.2.2.2⟩, ?_⟩
    rcases l23 with h | h
    · rcases l12 with h' | h'
      · exact Or.inl (h.trans h')
      · exact Or.inr (h.trans h')
    · exact Or.inr h

/-- One pass-two step over an absorbed job only bumps `last_seen_at`. -/
theorem pass2_step (now2 : Int) (st : Store) (j : Job)
    (habs : absorbs st now2 j) :
    storeStableExceptLastSeen st (upsertOne now2 st j) now2 := by
  cases hval : jobIsValid j with
  | false =>
    rw [upsertOne_invalid now2 st j hval]
    exact storeStable_refl st now2
  | true =>
    cases hstale : is_stale_posting j.posted_at now2 with
    | true =>
      rw [upsertOne_stale now2 st j hstale]
      exact storeStable_refl st now2
    | false =>
      obtain ⟨r, hr, hp, hd, hs⟩ := habs hval hstale
      have hmerge : mergedRow r j (score_job j.title j.location j.description) now2 =
          { r with last_seen_at := now2 } :=
        mergedRow_noop r j _ now2 hp hd hs
      intro k
      by_cases hk : k = j.key
      · subst hk
        have hval_eq : upsertOne now2 st j j.key =
            some ({ r with last_seen_at := now2 }) := by
          rw [upsertOne_key_eq now2 st j hval hstale, hr]
          exact congrArg some hmerge
        constructor
        · constructor
          · intro h0
            rw [hr] at h0
            cases h0
          · intro h0
            rw [hval_eq] at h0
            cases h0
        · intro r0 r' h0 h'
          rw [hr] at h0
          injection h0 with h0
          subst h0
          rw [hval_eq] at h'
          injection h' with h'
          subst h'
          exact ⟨⟨rfl, rfl, rfl, rfl, rfl, rfl, rfl, rfl⟩, Or.inr rfl⟩
      · constructor
        · rw [upsertOne_other_eq now2 st j k hk]
        · intro r0 r' h0 h'
          rw [upsertOne_other_eq now2 st j k hk, h0] at h'
          injection h' with h'
          subst h'
          exact ⟨⟨rfl, rfl, rfl, rfl, rfl, rfl, rfl, rfl⟩, Or.inl rfl⟩

/-- A whole pass over absorbed jobs only bumps `last_seen_at`. -/
theorem pass2_stable (now2 : Int) (js : List Job) (st : Store)
    (habs : ∀ j ∈ js, absorbs st now2 j) :
    storeStableExceptLastSeen st (upsertStore now2 st js) now2 := by
  induction js generalizing st with
  | nil => exact storeStable_refl st now2
  | cons j rest ih =>
    have h1 := pass2_step now2 st j (habs j (List.mem_cons_self j rest))
    have habs' : ∀ j' ∈ rest, absorbs (upsertOne now2 st j) now2 j' :=
      fun j' hj' => absorbs_preserved_upsertOne now2 now2 st j' j
        (habs j' (List.mem_cons_of_mem j hj'))
    exact storeStable_trans h1 (ih (upsertOne now2 st j) habs')

/-- C2: applying `upsert_jobs` to the same job list twice (second pass
at a no-earlier clock `now2`) yields exactly the rows of the single
application: no key appears or disappears, and every field of every
row is unchanged except `last_seen_at`, which either stays or advances
to the second pass's timestamp. -/
theorem upsert_idempotent (js : List Job) (st : Store) (now1 now2 : Int)
    (hle : now1 ≤ now2) :
    (∀ k, upsertStore now1 st js k = none ↔
      upsertStore now2 (upsertStore now1 st js) js k = none) ∧
    (∀ k r1 r2, upsertStore now1 st js k = some r1 →
      upsertStore now2 (upsertStore now1 st js) js k = some r2 →
      fieldsEqExceptLastSeen r1 r2 ∧
      (r2.last_seen_at = r1.last_seen_at ∨ r2.last_seen_at = now2)) := by
  have habs : ∀ j ∈ js, absorbs (upsertStore now1 st js) now2 j :=
    fun j hj => all_absorbed now1 now2 hle js st j hj
  have h := pass2_stable now2 js (upsertStore now1 st js) habs
  exact ⟨fun k => (h k).1, fun k r1 r2 h1 h2 => (h k).2 r1 r2 h1 h2⟩

theorem upsert_idempotent_witness :
    ((0 : Int) ≤ 10) ∧
    (upsertStore 0 (fun _ => none)
      [⟨"greenhouse", "1", "Data Analyst", "Acme", "Remote", "u", none, 0, "python"⟩]
      ("greenhouse", "1") =
        some ⟨"Data Analyst", "Acme", "Remote", "u", none, 0, 0, some "python", 4⟩) ∧
    (upsertStore 10 (upsertStore 0 (fun _ => none)
      [⟨"greenhouse", "1", "Data Analyst", "Acme", "Remote", "u", none, 0, "python"⟩])
      [⟨"greenhouse", "1", "Data Analyst", "Acme", "Remote", "u", none, 0, "python"⟩]
      ("greenhouse", "1") =
        some ⟨"Data Analyst", "Acme", "Remote", "u", none, 0, 10, some "python", 4⟩) ∧
    fieldsEqExceptLastSeen
      ⟨"Data Analyst", "Acme", "Remote", "u", none, 0, 0, some "python", 4⟩
      ⟨"Data Analyst", "Acme", "Remote", "u", none, 0, 10, some "python", 4⟩ ∧
    ((10 : Int) = 0 ∨ (10 : Int) = 10) := by
  have h := (upsert_idempotent
    [⟨"greenhouse", "1", "Data Analyst", "Acme", "Remote", "u", none, 0, "python"⟩]
    (fun _ => none) 0 10 (by norm_num)).2 ("greenhouse", "1")
    ⟨"Data Analyst", "Acme", "Remote", "u", none, 0, 0, some "python", 4⟩
    ⟨"Data Analyst", "Acme", "Remote", "u", none, 0, 10, some "python", 4⟩
    (by decide) (by decide)
  exact ⟨by norm_num, by decide, by decide, h.1, h.2⟩

end JobRadar
